import Mathlib

/-!
Verification development for the stats-tracker bot's history query and
soft-delete / recovery engine (src/history_handlers.py, src/app.py).

The Python code is shallowly embedded: timestamps stay the ISO-8601 strings
the store holds (modelled as lists of characters), timezones are modelled as
fixed offsets in minutes obtained from an abstract zone database, instants
are integers counting seconds since the civil epoch 1970-01-01 (fractional
seconds are floored away, which preserves every comparison against the
whole-second window boundaries the code computes), and the document store's
read-modify-write cycle becomes explicit record passing.
-/

namespace StatsBot

/-! ### Character-list utilities (Python `str` operations) -/

/-- Code-point lexicographic strict comparison of character lists; this is
exactly how Python compares two `str` values. -/
def charListLt : List Char → List Char → Bool
  | _, [] => false
  | [], _ :: _ => true
  | a :: as, b :: bs =>
    a.toNat < b.toNat || (a.toNat == b.toNat && charListLt as bs)

/-- Python `a <= b` on strings, written as the negation of the reversed
strict comparison. -/
def charListLe (a b : List Char) : Bool := ! charListLt b a

/-- Python `str.split(sep)` for a single-character separator: splitting the
empty string yields one empty field, and every separator occurrence opens a
new field. -/
def splitOnChar (c : Char) : List Char → List (List Char)
  | [] => [[]]
  | x :: xs =>
    match splitOnChar c xs with
    | [] => [[]]
    | h :: t => if x = c then [] :: h :: t else (x :: h) :: t

/-- Python `str.startswith`. -/
def startsWithChars : List Char → List Char → Bool
  | [], _ => true
  | _ :: _, [] => false
  | p :: ps, c :: cs => p == c && startsWithChars ps cs

/-- Python `str.endswith` for a single character. -/
def endsWithChar (c : Char) (s : List Char) : Bool :=
  match s.getLast? with
  | some x => x == c
  | none => false

/-- Python `s.replace('Z', '+00:00')`: every occurrence of `Z` is expanded. -/
def replaceZ (s : List Char) : List Char :=
  s.flatMap fun c => if c = 'Z' then ['+', '0', '0', ':', '0', '0'] else [c]

/-- Digit with value `d` (used both for rendering and for the round-trip
proofs about numeric tokens). -/
def digitChar (d : Nat) : Char :=
  if d = 0 then '0' else if d = 1 then '1' else if d = 2 then '2'
  else if d = 3 then '3' else if d = 4 then '4' else if d = 5 then '5'
  else if d = 6 then '6' else if d = 7 then '7' else if d = 8 then '8' else '9'

/-- Fuel-bounded decimal rendering; the fuel is structural so the kernel
can evaluate it, and any fuel exceeding the number suffices. -/
def natToCharsFuel : Nat → Nat → List Char
  | 0, _ => []
  | fuel + 1, n =>
    if n < 10 then [digitChar n]
    else natToCharsFuel fuel (n / 10) ++ [digitChar (n % 10)]

/-- Decimal rendering of a natural number, most significant digit first
(Python `str(n)` for a nonnegative `int`). -/
def natToChars (n : Nat) : List Char := natToCharsFuel (n + 1) n

/-- Printable ASCII other than space: the alphabet of the tokens the chat
layer can deliver to the numeric parsers (Telegram splits command
arguments on whitespace, so a token never carries whitespace).  On such
tokens the `int` model below agrees with Python's `int` exactly; outside
it Python additionally accepts surrounding whitespace and non-ASCII
decimal digits, which the model does not cover, so theorems that rely on
`int` *rejecting* a token carry this restriction. -/
def plainAsciiChar (c : Char) : Prop := 33 ≤ c.toNat ∧ c.toNat ≤ 126

instance decPlainAsciiChar (c : Char) : Decidable (plainAsciiChar c) :=
  inferInstanceAs (Decidable (33 ≤ c.toNat ∧ c.toNat ≤ 126))

/-- Tail of a decimal token after its first digit: digits accumulate, and a
single underscore is allowed between two digits (the PEP 515 digit
grouping Python's `int` accepts, so `int('1_2') = 12`); a leading,
trailing, doubled, or otherwise misplaced underscore fails. -/
def parseNatTail : Nat → List Char → Option Nat
  | acc, [] => some acc
  | acc, c :: cs =>
    if c.isDigit then parseNatTail (acc * 10 + (c.toNat - 48)) cs
    else if c = '_' then
      match cs with
      | d :: rest =>
        if d.isDigit then parseNatTail (acc * 10 + (d.toNat - 48)) rest
        else none
      | [] => none
    else none

/-- Python `int(s)` on a nonnegative token: a nonempty string starting with
a digit, with single underscores permitted between digits (PEP 515).  See
`plainAsciiChar` for the domain on which this matches `int` exactly. -/
def parseNatChars : List Char → Option Nat
  | [] => none
  | c :: cs => if c.isDigit then parseNatTail (c.toNat - 48) cs else none

/-- Decidable equality for `Except`, so concrete handler outcomes can be
checked by evaluation. -/
instance {ε α : Type} [DecidableEq ε] [DecidableEq α] :
    DecidableEq (Except ε α) := fun a b =>
  match a, b with
  | .ok x, .ok y =>
    if h : x = y then isTrue (h ▸ rfl)
    else isFalse fun hc => h (Except.ok.inj hc)
  | .error x, .error y =>
    if h : x = y then isTrue (h ▸ rfl)
    else isFalse fun hc => h (Except.error.inj hc)
  | .ok _, .error _ => isFalse fun hc => Except.noConfusion hc
  | .error _, .ok _ => isFalse fun hc => Except.noConfusion hc

/-- Effectful map over a list where any failure aborts the whole result,
mirroring a Python list comprehension whose body may raise. -/
def mapOptions {α β : Type} (f : α → Option β) : List α → Option (List β)
  | [] => some []
  | x :: xs => (f x).bind fun y => (mapOptions f xs).map fun ys => y :: ys

/-- Python `int(s)` for a possibly signed integer: an optional single `+` or
`-` sign followed by a nonempty digit run with PEP 515 underscore
grouping. -/
def parsePyInt (cs : List Char) : Option Int :=
  match cs with
  | '-' :: rest => (parseNatChars rest).map fun n => -(n : Int)
  | '+' :: rest => (parseNatChars rest).map fun n => (n : Int)
  | _ => (parseNatChars cs).map fun n => (n : Int)

/-! ### Civil calendar arithmetic

Day numbering relative to 1970-01-01, following the standard civil-calendar
algorithms; only used computationally, to resolve concrete ISO timestamps to
instants and to render instants back to wall-clock components. -/

/-- True for leap years of the proleptic Gregorian calendar. -/
def isLeapYear (y : Int) : Bool :=
  y % 4 = 0 && (y % 100 ≠ 0 || y % 400 = 0)

/-- Length of a month, as `datetime` validates it. -/
def daysInMonth (y : Int) (m : Nat) : Nat :=
  if m = 2 then (if isLeapYear y then 29 else 28)
  else if m = 4 || m = 6 || m = 9 || m = 11 then 30
  else 31

/-- Number of days from 1970-01-01 to the given civil date (negative for
earlier dates). -/
def daysFromCivil (y : Int) (m d : Nat) : Int :=
  let y' : Int := if m ≤ 2 then y - 1 else y
  let era : Int := Int.fdiv y' 400
  let yoe : Nat := (y' - era * 400).toNat
  let mp : Nat := if m > 2 then m - 3 else m + 9
  let doy : Nat := (153 * mp + 2) / 5 + d - 1
  let doe : Nat := yoe * 365 + yoe / 4 - yoe / 100 + doy
  era * 146097 + (doe : Int) - 719468

/-- Inverse of `daysFromCivil`: the civil date of a day number. -/
def civilFromDays (z0 : Int) : Int × Nat × Nat :=
  let z : Int := z0 + 719468
  let era : Int := Int.fdiv z 146097
  let doe : Nat := (z - era * 146097).toNat
  let yoe : Nat := (doe - doe / 1460 + doe / 36524 - doe / 146096) / 365
  let y : Int := era * 400 + yoe
  let doy : Nat := doe - (365 * yoe + yoe / 4 - yoe / 100)
  let mp : Nat := (5 * doy + 2) / 153
  let d : Nat := doy - (153 * mp + 2) / 5 + 1
  let m : Nat := if mp < 10 then mp + 3 else mp - 9
  (if m ≤ 2 then y + 1 else y, m, d)

/-! ### ISO-8601 timestamps as `datetime.fromisoformat` reads them -/

/-- The result of parsing a timestamp string: wall-clock components plus an
optional UTC offset in minutes (`none` models a naive `datetime`). -/
structure PyDateTime where
  year : Int
  month : Nat
  day : Nat
  hour : Nat
  minute : Nat
  second : Nat
  offsetMinutes : Option Int
deriving DecidableEq

/-- Wall-clock value of a parsed timestamp in seconds since the epoch,
ignoring its offset. -/
def wallSecs (dt : PyDateTime) : Int :=
  daysFromCivil dt.year dt.month dt.day * 86400
    + (dt.hour * 3600 + dt.minute * 60 + dt.second : Nat)

/-- Absolute instant of a parsed timestamp: the wall clock shifted by the
explicit offset, with naive values read as UTC. -/
def instantOf (dt : PyDateTime) : Int :=
  wallSecs dt - (dt.offsetMinutes.getD 0) * 60

/-- Two-digit numeric field. -/
def val2 (a b : Char) : Nat := (a.toNat - 48) * 10 + (b.toNat - 48)

/-- Tail of a timestamp after the seconds field: an optional fractional part
(discarded: the code only ever compares against whole-second boundaries and
renders minutes) followed by an optional `±HH:MM` offset. -/
def parseIsoTail (rest : List Char) : Option (Option Int) :=
  let afterFrac : Option (List Char) :=
    match rest with
    | '.' :: r =>
      let frac := r.takeWhile Char.isDigit
      if frac.isEmpty then none else some (r.dropWhile Char.isDigit)
    | _ => some rest
  afterFrac.bind fun r =>
    match r with
    | [] => some none
    | sgn :: o1 :: o2 :: ':' :: o3 :: o4 :: [] =>
      if (sgn = '+' || sgn = '-') && o1.isDigit && o2.isDigit && o3.isDigit
          && o4.isDigit && val2 o1 o2 ≤ 23 && val2 o3 o4 ≤ 59 then
        let mins : Int := (val2 o1 o2 * 60 + val2 o3 o4 : Nat)
        some (some (if sgn = '-' then -mins else mins))
      else none
    | _ => none

/-- Parsing as `datetime.fromisoformat` reads the timestamp shapes this system produces:
`YYYY-MM-DDTHH:MM:SS`, optionally with fractional seconds and a numeric
offset. Any other input raises `ValueError` in Python, modelled as `none`. -/
def parseIso (cs : List Char) : Option PyDateTime :=
  match cs with
  | y1 :: y2 :: y3 :: y4 :: '-' :: m1 :: m2 :: '-' :: d1 :: d2 :: 'T' ::
      h1 :: h2 :: ':' :: n1 :: n2 :: ':' :: s1 :: s2 :: rest =>
    if y1.isDigit && y2.isDigit && y3.isDigit && y4.isDigit && m1.isDigit
        && m2.isDigit && d1.isDigit && d2.isDigit && h1.isDigit && h2.isDigit
        && n1.isDigit && n2.isDigit && s1.isDigit && s2.isDigit then
      let y : Int := ((val2 y1 y2) * 100 + val2 y3 y4 : Nat)
      let mo := val2 m1 m2
      let dd := val2 d1 d2
      let hh := val2 h1 h2
      let mi := val2 n1 n2
      let ss := val2 s1 s2
      if 1 ≤ mo && mo ≤ 12 && 1 ≤ dd && dd ≤ daysInMonth y mo && hh ≤ 23
          && mi ≤ 59 && ss ≤ 59 then
        (parseIsoTail rest).map fun off =>
          { year := y, month := mo, day := dd, hour := hh, minute := mi,
            second := ss, offsetMinutes := off }
      else none
    else none
  | _ => none

/-! ### Timezones

`pytz.timezone` is modelled as an abstract zone database mapping an IANA id
to a fixed offset in minutes together with the abbreviation `strftime`'s
`%Z` renders; an unknown id is `none` (Python raises
`UnknownTimeZoneError`). -/

/-- A resolved timezone: fixed UTC offset in minutes and display
abbreviation. -/
structure TzInfo where
  offsetMinutes : Int
  abbr : String
deriving DecidableEq

/-- The resolved `pytz.UTC` timezone. -/
def utcTz : TzInfo := { offsetMinutes := 0, abbr := "UTC" }

/-- Abstract zone database standing for `pytz.timezone`. -/
abbrev Zdb := String → Option TzInfo

/-! ### `strftime` rendering -/

/-- Month abbreviation used by `%b`. -/
def monthAbbr (m : Nat) : String :=
  if m = 1 then "Jan" else if m = 2 then "Feb" else if m = 3 then "Mar"
  else if m = 4 then "Apr" else if m = 5 then "May" else if m = 6 then "Jun"
  else if m = 7 then "Jul" else if m = 8 then "Aug" else if m = 9 then "Sep"
  else if m = 10 then "Oct" else if m = 11 then "Nov" else "Dec"

/-- Two-digit zero-padded field. -/
def pad2 (n : Nat) : String := if n < 10 then "0" ++ Nat.repr n else Nat.repr n

/-- Rendering `dt.strftime('%b %d, %Y at %I:%M %p %Z')` applied to the instant's wall
clock in the display timezone. -/
def strftimeHistory (localWallSecs : Int) (abbr : String) : String :=
  let days := Int.fdiv localWallSecs 86400
  let secs := (localWallSecs - days * 86400).toNat
  let c := civilFromDays days
  let hh := secs / 3600
  let mi := secs % 3600 / 60
  let hour12 := (hh + 11) % 12 + 1
  let ampm := if hh < 12 then "AM" else "PM"
  monthAbbr c.2.1 ++ " " ++ pad2 c.2.2 ++ ", " ++ Nat.repr c.1.toNat
    ++ " at " ++ pad2 hour12 ++ ":" ++ pad2 mi ++ " " ++ ampm ++ " " ++ abbr

/-! ### `format_timestamp` (src/history_handlers.py lines 14-27 and
src/app.py lines 54-68)

Both variants are total: every failure path is caught and falls back.  The
history-module variant calls `astimezone` on a possibly naive `datetime`,
which Python resolves against the *process-local* timezone, modelled by the
`sysOffMin` parameter; the app-module variant first pins naive values to
UTC. -/

/-- The `format_timestamp` of src/history_handlers.py: a naive
timestamp is presumed to be in the system-local timezone by `astimezone`. -/
def format_timestamp (zdb : Zdb) (sysOffMin : Int) (iso_string : String)
    (timezone : String) : String :=
  match parseIso (replaceZ iso_string.data) with
  | none => iso_string
  | some dt =>
    let tz := (zdb timezone).getD utcTz
    let instant := wallSecs dt - (dt.offsetMinutes.getD sysOffMin) * 60
    strftimeHistory (instant + tz.offsetMinutes * 60) tz.abbr

/-- The `format_timestamp` redefined in src/app.py: a naive timestamp is
explicitly pinned to UTC before conversion. -/
def format_timestamp_app (zdb : Zdb) (iso_string : String)
    (timezone : String) : String :=
  match parseIso (replaceZ iso_string.data) with
  | none => iso_string
  | some dt =>
    let tz := (zdb timezone).getD utcTz
    let instant := wallSecs dt - (dt.offsetMinutes.getD 0) * 60
    strftimeHistory (instant + tz.offsetMinutes * 60) tz.abbr

/-! ### Data model (spec section 3, as the handlers read the store) -/

/-- One recorded measurement.  `is_deleted` is `none` when the key is absent
from the stored dict; `category` is the transient tag injected by group
queries and never persisted. -/
structure Entry where
  value : Int
  note : String
  timestamp : String
  timezone : Option String
  is_deleted : Option Bool
  category : Option String
deriving DecidableEq

/-- A category: ordered, oldest-first entry log plus an informational
creation timestamp. -/
structure Category where
  entries : List Entry
  created_at : String
deriving DecidableEq

/-- A user's whole stored document.  Python dicts become association lists;
lookup takes the first matching key, as dicts have no duplicates. -/
structure UserRecord where
  stats : List (String × Category)
  groups : List (String × List String)
  timezone : String
deriving DecidableEq

/-- Reading `entry.get('is_deleted', False)`. -/
def isDeletedB (e : Entry) : Bool := e.is_deleted.getD false

/-- Assignment to an existing dict key: replaces the value at the key,
leaving every other binding untouched. -/
def updateAssoc {β : Type} (m : List (String × β)) (k : String) (v : β) :
    List (String × β) :=
  m.map fun p => if p.1 == k then (p.1, v) else p

/-! ### Generic stable insertion sort (Python `list.sort(key=...)`)

Python's sort is stable; any stable sort by the same total preorder produces
the same sequence, so the embedding uses insertion sort, which is proved
stable below. -/

/-- Insert `a` before the first element `b` with `le a b`. -/
def insertLe {α : Type} (le : α → α → Bool) (a : α) : List α → List α
  | [] => [a]
  | b :: l => if le a b then a :: b :: l else b :: insertLe le a l

/-- Stable insertion sort by a boolean total preorder. -/
def sortLe {α : Type} (le : α → α → Bool) : List α → List α
  | [] => []
  | x :: xs => insertLe le x (sortLe le xs)

/-- The sort key of `entries.sort(key=lambda x: x['timestamp'])`: Python
compares the raw timestamp *strings* code-point-lexicographically. -/
def tsLe (a b : Entry) : Bool := charListLe a.timestamp.data b.timestamp.data

/-! ### History query engine (src/history_handlers.py `handle_history`) -/

/-- The transient source tag a group query stamps on each copied entry. -/
def tagEntry (cat : String) (e : Entry) : Entry := { e with category := some cat }

/-- Lines 80-89: union of the entries of every group member that exists in
`stats`, in group order then entry order, each tagged with its source
category. -/
def groupUnionRaw (stats : List (String × Category)) (cats : List String) :
    List Entry :=
  cats.flatMap fun c =>
    match stats.lookup c with
    | some k => k.entries.map (tagEntry c)
    | none => []

/-- Lines 61-67: the optional window argument.  Parsing is attempted only
when a second argument containing a colon exists; any `ValueError` (wrong
number of fields or non-integer day count) is swallowed, leaving no
window. -/
def parseWindow (args : List String) : Option (Int × Int) :=
  match args[1]? with
  | none => none
  | some a =>
    if a.data.contains ':' then
      match splitOnChar ':' a.data with
      | [b, f] =>
        match parsePyInt b, parsePyInt f with
        | some db, some df => some (db, df)
        | _, _ => none
      | _ => none
    else none

/-- Line 122: absolute instant of today's local midnight in a fixed-offset
timezone. -/
def userMidnight (offMin nowUtc : Int) : Int :=
  Int.fdiv (nowUtc + offMin * 60) 86400 * 86400 - offMin * 60

/-- Lines 140-151: how the window filter resolves one stored timestamp to
the absolute instant it compares.  Trailing `Z` is honoured as UTC; a string
containing `+` keeps its parsed offset; otherwise `.replace(tzinfo=UTC)`
reads the wall clock as UTC even when the string carried a negative
offset. -/
def entryInstantForFilter (timestamp_str : String) : Option Int :=
  let cs := timestamp_str.data
  if endsWithChar 'Z' cs then
    (parseIso (replaceZ cs)).map wallSecs
  else if cs.contains '+' then
    (parseIso cs).map fun dt => wallSecs dt - (dt.offsetMinutes.getD 0) * 60
  else
    (parseIso cs).map wallSecs

/-- Lines 124-163: the date-window filter loop, accumulating the entries
whose resolved instant lies in the computed range; a timestamp that fails to
parse is skipped. -/
def windowFilterCode (mid days_back days_forward : Int)
    (entries : List Entry) : List Entry :=
  let start_date := mid - (days_back.natAbs : Int) * 86400
  let end_date0 := mid - days_forward * 86400
  let end_date := if days_forward ≤ 0 then end_date0 + 86400 else end_date0
  entries.foldl
    (fun acc e =>
      match entryInstantForFilter e.timestamp with
      | some t => if start_date ≤ t && t < end_date then acc ++ [e] else acc
      | none => acc)
    []

/-- Failure modes `handle_history` reports before rendering anything. -/
inductive HistoryError where
  | noData
  | notFound
  | invalidTimezone
deriving DecidableEq

/-- Lines 98-163 applied after target resolution: drop deleted entries,
stop early when none remain, then apply the window when one was supplied,
validating the user's configured timezone only on that path. -/
def historyPostResolve (zdb : Zdb) (nowUtc : Int) (userTzName : String)
    (args : List String) (entries : List Entry) :
    Except HistoryError (List Entry) :=
  let active := entries.filter fun e => ! isDeletedB e
  if active.isEmpty then .ok []
  else
    match parseWindow args with
    | none => .ok active
    | some (db, df) =>
      match zdb userTzName with
      | none => .error .invalidTimezone
      | some tz =>
        .ok (windowFilterCode (userMidnight tz.offsetMinutes nowUtc) db df
          active)

/-- The `handle_history` computation of the entry sequence it renders: group
lookup first (union tagged and sorted by raw timestamp string), then plain
category, then the not-found error. -/
def handle_history (zdb : Zdb) (nowUtc : Int) (r : UserRecord)
    (target : String) (args : List String) :
    Except HistoryError (List Entry) :=
  if r.stats.isEmpty && r.groups.isEmpty then .error .noData
  else
    match r.groups.lookup target with
    | some gcats =>
      historyPostResolve zdb nowUtc r.timezone args
        (sortLe tsLe (groupUnionRaw r.stats gcats))
    | none =>
      match r.stats.lookup target with
      | some c => historyPostResolve zdb nowUtc r.timezone args c.entries
      | none => .error .notFound

/-! ### Deletion engine: index parsing (src/history_handlers.py
`_parse_indices`, lines 465-490) -/

/-- Python `str.strip()`. -/
def pyStrip (s : List Char) : List Char :=
  ((s.dropWhile Char.isWhitespace).reverse.dropWhile Char.isWhitespace).reverse

/-- Python `int(s)` for the tokens `_parse_indices` feeds it: an optional
single leading `+` then a digit run with PEP 515 underscore grouping (a
`-` never reaches `int` here because it routes the token to the range
branch first). -/
def parseNatPlus (cs : List Char) : Option Nat :=
  match cs with
  | '+' :: rest => parseNatChars rest
  | _ => parseNatChars cs

/-- Values contributed by one comma-separated token: a bare integer, or an
inclusive `A-B` range realised as Python `range(A, B+1)` (empty when
`A > B`); `none` models the `ValueError` that aborts the whole parse. -/
def parsePart (part : List Char) : Option (List Nat) :=
  if part.contains '-' then
    match splitOnChar '-' part with
    | [a, b] =>
      match parseNatPlus a, parseNatPlus b with
      | some s, some e => some (List.range' s (e + 1 - s))
      | _, _ => none
    | _ => none
  else (parseNatPlus part).map fun n => [n]

/-- Python `sorted(list(indices))` for the accumulated set: ascending distinct
values. -/
def sortedDedup (l : List Nat) : List Nat :=
  sortLe (fun a b => decide (a ≤ b)) l.dedup

/-- One step of `_parse_indices`' token loop: an already-failed parse stays
failed, an empty token is skipped, and a malformed token fails the whole
parse. -/
def indicesFoldStep (acc : Option (List Nat)) (part : List Char) :
    Option (List Nat) :=
  acc.bind fun l =>
    if part.isEmpty then some l
    else (parsePart part).map fun vs => l ++ vs

/-- The values one token contributes when the whole parse succeeds: nothing
for an empty token, the token's parsed values otherwise. -/
def partValues (part : List Char) : List Nat :=
  if part.isEmpty then [] else (parsePart part).getD []

/-- The `_parse_indices` parse: empty or all-whitespace input yields `[]`; otherwise
every space is removed, the result is split on commas, empty tokens are
skipped, and each remaining token contributes its values to a set returned
in ascending order — any token `int` rejects makes the whole call return
`[]`. -/
def parse_indices (indices_str : String) : List Nat :=
  let s := indices_str.data
  if s.isEmpty || (pyStrip s).isEmpty then []
  else
    let cleaned := s.filter fun c => c ≠ ' '
    let parts := splitOnChar ',' cleaned
    let collected : Option (List Nat) := parts.foldl indicesFoldStep (some [])
    match collected with
    | some l => sortedDedup l
    | none => []

/-! ### Deletion engine: proposal phase (src/history_handlers.py
`_handle_deletion_command`, lines 350-442, and the confirmation token of
`_show_deletion_confirmation`, lines 530-544) -/

/-- Python `','.join(str(i) for i in indices)`. -/
def joinCommaNats : List Nat → List Char
  | [] => []
  | n :: rest =>
    match rest with
    | [] => natToChars n
    | _ :: _ => natToChars n ++ ',' :: joinCommaNats rest

/-- The callback token
`f"confirm_delete_{category}_{delete_flag}_{indices}"`. -/
def confirmationCallbackData (category delete_flag : List Char)
    (indices : List Nat) : List Char :=
  "confirm_delete_".data
    ++ (category ++ ('_' :: (delete_flag ++ ('_' :: joinCommaNats indices))))

/-- What the proposal phase can answer; no variant writes to the store. -/
inductive ProposeOutcome where
  | categoryNotFound
  | formatError
  | outOfRange (invalid : List Nat) (maxIndex : Nat)
  | commandError
  | confirmation (callback_data : List Char) (proposed : List (Nat × Entry))
deriving DecidableEq

/-- Lines 407-423: map each validated display index (1-based into the
reversed active list) to a storage index by the first value+timestamp match
in the full entry log; a missing match raises `StopIteration`, caught by the
generic handler. -/
def resolveStorage (entries active : List Entry) (targets : List Nat) :
    Option (List (Nat × Entry)) :=
  mapOptions
    (fun idx =>
      (active[idx - 1]?).bind fun target =>
        (entries.findIdx? fun e =>
            e.timestamp == target.timestamp && e.value == target.value).map
          fun i => (i, target))
    targets

/-- The `_handle_deletion_command` body after the flag has been located and the index
string assembled: parse the indices, validate them against the active count,
resolve them to storage indices, and package the confirmation token.  No
path stores anything. -/
def handle_deletion_command (category : String) (entries : List Entry)
    (indices_str : String) (delete_flag : String) : ProposeOutcome :=
  let target_indices := parse_indices indices_str
  if target_indices.isEmpty then .formatError
  else
    let active_entries := (entries.filter fun e => ! isDeletedB e).reverse
    let max_index := active_entries.length
    let invalid_indices := target_indices.filter fun idx =>
      idx < 1 || idx > max_index
    if ! invalid_indices.isEmpty then .outOfRange invalid_indices max_index
    else
      match resolveStorage entries active_entries target_indices with
      | none => .commandError
      | some items =>
        .confirmation
          (confirmationCallbackData category.data delete_flag.data
            (items.map Prod.fst))
          items

/-! ### Deletion engine: confirmation phase (src/history_handlers.py
`handle_delete_callback`, lines 564-634) -/

/-- Lines 578-586: parsing the confirmation callback token by splitting on
underscores; field 2 is taken as the category, field 3 as the flag, field 4
(when present) as the comma-separated storage indices.  Any missing field or
non-numeric index is the caught exception path, `none`. -/
def parseConfirmCallback (data : List Char) :
    Option (List Char × List Char × List Nat) :=
  if startsWithChars "confirm_delete_".data data then
    let parts := splitOnChar '_' data
    match parts[2]?, parts[3]? with
    | some category, some flag =>
      let indices_str := if parts.length > 4 then (parts[4]?).getD [] else []
      let nums : Option (List Nat) :=
        if indices_str.isEmpty then some []
        else mapOptions parseNatChars (splitOnChar ',' indices_str)
      nums.map fun ns => (category, flag, ns)
    | _, _ => none
  else none

/-- The two deletion modes. -/
inductive DeleteFlag where
  | soft
  | hard
deriving DecidableEq

/-- Soft delete flags an entry in place. -/
def markDeleted (e : Entry) : Entry := { e with is_deleted := some true }

/-- Lines 602-611: one hard-delete rebuild pass over the *original* list,
keeping every position outside the full target set and counting every
excluded position. -/
def hardRebuild (storage_indices : List Nat) : Nat → List Entry →
    List Entry × Nat
  | _, [] => ([], 0)
  | i, e :: es =>
    let r := hardRebuild storage_indices (i + 1) es
    if storage_indices.contains i then (r.1, r.2 + 1) else (e :: r.1, r.2)

/-- Running state of the confirmation loop: the entries list as the stored
document sees it, the running `deleted_count`, and the sticky
`entries_modified` flag. -/
structure ConfirmState where
  stored : List Entry
  deleted_count : Nat
  entries_modified : Bool
deriving DecidableEq

/-- Lines 595-611: one iteration of the confirmation loop.  The bounds check
uses the handler-local `entries` list, whose length never changes (soft
delete mutates in place; hard delete rebinds only the stored document), so
it is the original length throughout.  In hard mode the rebuild always
starts from the original list and re-counts every excluded position. -/
def confirmStep (original : List Entry) (storage_indices : List Nat)
    (flag : DeleteFlag) (st : ConfirmState) (storage_idx : Nat) :
    ConfirmState :=
  if storage_idx < original.length then
    match flag with
    | .soft =>
      match st.stored[storage_idx]? with
      | some e =>
        { stored := st.stored.set storage_idx (markDeleted e),
          deleted_count := st.deleted_count + 1, entries_modified := true }
      | none => st
    | .hard =>
      let r := hardRebuild storage_indices 0 original
      { stored := r.1, deleted_count := st.deleted_count + r.2,
        entries_modified := st.entries_modified || decide (0 < r.2) }
  else st

/-- The whole confirmation loop over the requested storage indices. -/
def runConfirmDeletion (original : List Entry) (flag : DeleteFlag)
    (storage_indices : List Nat) : ConfirmState :=
  storage_indices.foldl (confirmStep original storage_indices flag)
    { stored := original, deleted_count := 0, entries_modified := false }

/-- The `handle_delete_callback` application on a confirm token already parsed into
category, flag and indices: reload the record, run the loop over that
category's entries, and produce the record as stored (a missing category is
the caught `KeyError` path: nothing is read or written). -/
def handle_delete_callback (r : UserRecord) (category : String)
    (flag : DeleteFlag) (storage_indices : List Nat) :
    Option (UserRecord × ConfirmState) :=
  match r.stats.lookup category with
  | none => none
  | some c =>
    let st := runConfirmDeletion c.entries flag storage_indices
    some
      ({ r with
          stats := updateAssoc r.stats category { c with entries := st.stored } },
        st)

/-! ### Recovery (src/history_handlers.py `handle_recover_callback`,
lines 743-750) -/

/-- Modelled from the spec: the source's `handle_recover_callback` is an
unimplemented placeholder (it only edits the message text), and spec
section 4.4 requires `recover(category, storageIndex)` to set
`is_deleted = false` at the given storage index if still valid, as the exact
mirror of soft delete. -/
def recoverEntry (entries : List Entry) (storage_index : Nat) : List Entry :=
  match entries[storage_index]? with
  | some e => entries.set storage_index { e with is_deleted := some false }
  | none => entries

/-! ### Active-entry display view (src/history_handlers.py
`_show_entries_with_indices`, lines 296-331, and spec section 4.4
`listActive`) -/

/-- The `listActive` view: non-deleted entries, newest first, with 1-based display
indices. -/
def listActive (entries : List Entry) : List (Nat × Entry) :=
  let active := (entries.filter fun e => ! isDeletedB e).reverse
  (List.range' 1 active.length).zip active

/-- The persisted fields a displayed entry shows (everything except the
deletion flag, which the active view has already consumed, and the transient
group tag). -/
def entryView (e : Entry) : Int × String × String × Option String :=
  (e.value, e.timestamp, e.note, e.timezone)

/-- The rendered active view: display index plus displayed fields. -/
def displayActive (entries : List Entry) :
    List (Nat × (Int × String × String × Option String)) :=
  (listActive entries).map fun p => (p.1, entryView p.2)

/-! ### Spec-side definitions

These follow the specification's words rather than the code, and exist only
to be compared with the embedded code above. -/

/-- Written from the spec (section 4.1): an entry's timestamp resolved to an
absolute instant, honouring a trailing `Z`, any explicit numeric offset
(positive or negative), and reading naive strings as UTC. -/
def specEntryInstant (e : Entry) : Option Int :=
  (parseIso (replaceZ e.timestamp.data)).map instantOf

/-- Written from the spec (section 4.3): order entries by resolved instant
ascending.  Unresolvable timestamps sort first so the comparison is a total
preorder. -/
def specInstantLe (a b : Entry) : Bool :=
  match specEntryInstant a, specEntryInstant b with
  | some x, some y => decide (x ≤ y)
  | none, _ => true
  | some _, none => false

/-- Written from the spec (section 4.3): the group union stably sorted by
entry instant ascending. -/
def specInstantSortedUnion (stats : List (String × Category))
    (cats : List String) : List Entry :=
  sortLe specInstantLe (groupUnionRaw stats cats)

/-- The window's start instant as the spec states it:
`localMidnight - |days_back| days`. -/
def specWindowStart (mid days_back : Int) : Int :=
  mid - (days_back.natAbs : Int) * 86400

/-- The window's end instant as the spec states it:
`localMidnight - days_forward days`, plus one day when
`days_forward <= 0`. -/
def specWindowEnd (mid days_forward : Int) : Int :=
  if days_forward ≤ 0 then mid - days_forward * 86400 + 86400
  else mid - days_forward * 86400

/-- The spec's window membership test: the entry's resolved instant `t`
satisfies `start <= t < end` (an unresolvable timestamp never passes). -/
def specWindowPass (mid days_back days_forward : Int) (e : Entry) : Bool :=
  match entryInstantForFilter e.timestamp with
  | some t =>
    decide (specWindowStart mid days_back ≤ t)
      && decide (t < specWindowEnd mid days_forward)
  | none => false

/-! ### Record-level proposal wrapper and auxiliary views -/

/-- The deletion path of `handle_r` (lines 276-294) followed by
`_handle_deletion_command`: the stored document is returned alongside the
outcome; no branch of either function calls `db.set_user`, so the document
component is the input record on every path. -/
def handle_r_delete (r : UserRecord) (category : String)
    (indices_str delete_flag : String) : UserRecord × ProposeOutcome :=
  match r.stats.lookup category with
  | none => (r, .categoryNotFound)
  | some c =>
    (r, handle_deletion_command category c.entries indices_str delete_flag)

/-- Everything the active display view depends on for one entry: its
activity bit and its displayed fields. -/
def entryKey (e : Entry) : Bool × (Int × String × String × Option String) :=
  (isDeletedB e, entryView e)

/-- The displayed fields of the active entries, oldest first (the display
view is fully determined by this list). -/
def viewsActive (entries : List Entry) :
    List (Int × String × String × Option String) :=
  (entries.filter fun e => ! isDeletedB e).map entryView

/-! ### Concrete sample data for witnesses and counterexamples -/

/-- A tiny concrete zone database holding only UTC. -/
def zdbTest : Zdb := fun s => if s = "UTC" then some utcTz else none

/-- Sample entry recorded 2024-01-01T00:00:00Z. -/
def eJan1 : Entry := ⟨10, "", "2024-01-01T00:00:00Z", none, none, none⟩

/-- Sample entry recorded 2024-01-05T00:00:00Z. -/
def eJan5 : Entry := ⟨20, "", "2024-01-05T00:00:00Z", none, none, none⟩

/-- Sample entry recorded exactly at 2024-01-10T00:00:00Z, the local
midnight of the sample query instant below. -/
def eJan10 : Entry := ⟨30, "", "2024-01-10T00:00:00Z", none, none, none⟩

/-- Sample category holding the three entries above. -/
def catSample : Category := ⟨[eJan1, eJan5, eJan10], "2024-01-01T00:00:00Z"⟩

/-- Sample record with one category holding the three entries above. -/
def recSample : UserRecord := ⟨[("weight", catSample)], [], "UTC"⟩

/-- Sample query instant: 2024-01-10T01:00:00Z, whose UTC local midnight is
2024-01-10T00:00:00Z. -/
def nowSample : Int := daysFromCivil 2024 1 10 * 86400 + 3600

/-- Sample entry whose timestamp carries a negative offset, as `/add`
stores for any user west of Greenwich: its true absolute instant is
2024-01-03T01:00:00Z, but the window filter's else branch (neither a
trailing `Z` nor a `+` in the string) replaces the timezone with UTC and
reads the wall clock 2024-01-02T18:00:00 as the instant, seven hours
early. -/
def eNegOff : Entry :=
  ⟨40, "", "2024-01-02T18:00:00-07:00", some "America/Denver", none, none⟩

/-- Sample record whose category also holds the negative-offset entry. -/
def recNegOff : UserRecord :=
  ⟨[("weight", ⟨[eNegOff, eJan5, eJan10], "2024-01-01T00:00:00Z"⟩)], [],
    "UTC"⟩

/-- Sample entry whose timestamp carries a +09:00 offset; its absolute
instant (2024-01-01T16:00:00Z) precedes `eGroupB`'s, but its timestamp
string sorts after `eGroupB`'s. -/
def eGroupA : Entry :=
  ⟨1, "", "2024-01-02T01:00:00+09:00", some "Asia/Tokyo", none, none⟩

/-- Sample entry at 2024-01-01T20:00:00Z. -/
def eGroupB : Entry := ⟨2, "", "2024-01-01T20:00:00Z", none, none, none⟩

/-- Stats map for the group-ordering counterexample. -/
def statsGroupSample : List (String × Category) :=
  [("a", ⟨[eGroupA], "x"⟩), ("b", ⟨[eGroupB], "x"⟩)]

/-! ### Lemmas: code-point lexicographic comparison is a strict weak order -/

theorem charListLt_irrefl : ∀ s, charListLt s s = false
  | [] => rfl
  | c :: s => by simp [charListLt, charListLt_irrefl s]

theorem charListLt_asymm : ∀ a b, charListLt a b = true → charListLt b a = false
  | _, [], h => by simp [charListLt] at h
  | [], _ :: _, _ => rfl
  | a :: as, b :: bs, h => by
    simp only [charListLt, Bool.or_eq_true, Bool.and_eq_true, beq_iff_eq,
      decide_eq_true_eq] at h
    simp only [charListLt, Bool.or_eq_false_iff, Bool.and_eq_false_iff,
      decide_eq_false_iff_not, beq_eq_false_iff_ne, ne_eq]
    rcases h with h | ⟨he, ht⟩
    · exact ⟨by omega, Or.inl (by omega)⟩
    · exact ⟨by omega, Or.inr (charListLt_asymm as bs ht)⟩

theorem charListNotLt_trans :
    ∀ a b c, charListLt b a = false → charListLt c b = false →
      charListLt c a = false
  | [], _, c, _, _ => by cases c <;> rfl
  | _ :: _, [], _, h1, _ => by simp [charListLt] at h1
  | _ :: _, _ :: _, [], _, h2 => by simp [charListLt] at h2
  | x :: xs, y :: ys, z :: zs, h1, h2 => by
    simp only [charListLt, Bool.or_eq_false_iff, Bool.and_eq_false_iff,
      decide_eq_false_iff_not, beq_eq_false_iff_ne, ne_eq] at h1 h2 ⊢
    refine ⟨by omega, ?_⟩
    rcases h1.2 with h1e | h1t
    · exact Or.inl (by omega)
    · rcases h2.2 with h2e | h2t
      · exact Or.inl (by omega)
      · by_cases hzx : z.toNat = x.toNat
        · exact Or.inr (charListNotLt_trans xs ys zs h1t h2t)
        · exact Or.inl hzx

theorem charListLe_refl (s : List Char) : charListLe s s = true := by
  simp [charListLe, charListLt_irrefl]

theorem charListLe_total (a b : List Char) :
    charListLe a b = true ∨ charListLe b a = true := by
  unfold charListLe
  by_cases h : charListLt b a = true
  · exact Or.inr (by simp [charListLt_asymm b a h])
  · exact Or.inl (by simp [Bool.not_eq_true] at h; simp [h])

theorem charListLe_trans (a b c : List Char) (h1 : charListLe a b = true)
    (h2 : charListLe b c = true) : charListLe a c = true := by
  unfold charListLe at h1 h2 ⊢
  simp only [Bool.not_eq_true'] at h1 h2 ⊢
  exact charListNotLt_trans a b c h1 h2

theorem tsLe_total (a b : Entry) : tsLe a b = true ∨ tsLe b a = true :=
  charListLe_total _ _

theorem tsLe_trans (a b c : Entry) (h1 : tsLe a b = true)
    (h2 : tsLe b c = true) : tsLe a c = true :=
  charListLe_trans _ _ _ h1 h2

theorem tsLe_of_eq_ts (a b : Entry) (h : a.timestamp = b.timestamp) :
    tsLe a b = true := by
  unfold tsLe; rw [h]; exact charListLe_refl _

/-! ### Lemmas: insertion sort permutes, sorts, and is stable -/

theorem insertLe_perm {α : Type} (le : α → α → Bool) (a : α) :
    ∀ l : List α, List.Perm (insertLe le a l) (a :: l)
  | [] => List.Perm.refl _
  | b :: l => by
    unfold insertLe
    by_cases h : le a b = true
    · simp [h]
    · simp only [h, if_false]
      exact ((insertLe_perm le a l).cons b).trans (List.Perm.swap a b l)

theorem sortLe_perm {α : Type} (le : α → α → Bool) :
    ∀ l : List α, List.Perm (sortLe le l) l
  | [] => List.Perm.refl _
  | x :: xs =>
    (insertLe_perm le x (sortLe le xs)).trans ((sortLe_perm le xs).cons x)

theorem mem_insertLe {α : Type} {le : α → α → Bool} {a x : α} {l : List α}
    (h : x ∈ insertLe le a l) : x = a ∨ x ∈ l := by
  have := (insertLe_perm le a l).mem_iff.mp h
  simpa using this

theorem pairwise_insertLe {α : Type} (le : α → α → Bool)
    (htot : ∀ a b, le a b = true ∨ le b a = true)
    (htrans : ∀ a b c, le a b = true → le b c = true → le a c = true)
    (a : α) :
    ∀ l : List α, l.Pairwise (fun x y => le x y = true) →
      (insertLe le a l).Pairwise (fun x y => le x y = true)
  | [], _ => by simp [insertLe]
  | b :: l, hp => by
    rw [List.pairwise_cons] at hp
    unfold insertLe
    by_cases h : le a b = true
    · simp only [h, if_true]
      refine List.Pairwise.cons ?_ (List.Pairwise.cons hp.1 hp.2)
      intro x hx
      rcases List.mem_cons.mp hx with rfl | hx
      · exact h
      · exact htrans a b x h (hp.1 x hx)
    · simp only [h, if_false]
      have hba : le b a = true := (htot a b).resolve_left h
      refine List.Pairwise.cons ?_ (pairwise_insertLe le htot htrans a l hp.2)
      intro x hx
      rcases mem_insertLe hx with rfl | hx
      · exact hba
      · exact hp.1 x hx

theorem pairwise_sortLe {α : Type} (le : α → α → Bool)
    (htot : ∀ a b, le a b = true ∨ le b a = true)
    (htrans : ∀ a b c, le a b = true → le b c = true → le a c = true) :
    ∀ l : List α, (sortLe le l).Pairwise (fun x y => le x y = true)
  | [] => List.Pairwise.nil
  | x :: xs =>
    pairwise_insertLe le htot htrans x (sortLe le xs)
      (pairwise_sortLe le htot htrans xs)

theorem filter_insertLe_pos {α : Type} (le : α → α → Bool) (p : α → Bool)
    (a : α) (hpa : p a = true) (himp : ∀ b, p b = true → le a b = true) :
    ∀ l : List α, (insertLe le a l).filter p = a :: l.filter p
  | [] => by simp [insertLe, hpa]
  | b :: l => by
    unfold insertLe
    by_cases h : le a b = true
    · simp [h, List.filter_cons, hpa]
    · have hpb : p b = false := by
        cases hb : p b
        · rfl
        · exact absurd (himp b hb) h
      simp [h, List.filter_cons, hpb, filter_insertLe_pos le p a hpa himp l]

theorem filter_insertLe_neg {α : Type} (le : α → α → Bool) (p : α → Bool)
    (a : α) (hpa : p a = false) :
    ∀ l : List α, (insertLe le a l).filter p = l.filter p
  | [] => by simp [insertLe, hpa]
  | b :: l => by
    unfold insertLe
    by_cases h : le a b = true <;>
      simp [h, List.filter_cons, hpa, filter_insertLe_neg le p a hpa l]

theorem filter_sortLe {α : Type} (le : α → α → Bool) (p : α → Bool)
    (hkey : ∀ a b, p a = true → p b = true → le a b = true) :
    ∀ l : List α, (sortLe le l).filter p = l.filter p
  | [] => rfl
  | x :: xs => by
    unfold sortLe
    cases hx : p x
    · rw [filter_insertLe_neg le p x hx, filter_sortLe le p hkey xs,
        List.filter_cons_of_neg (by simp [hx])]
    · rw [filter_insertLe_pos le p x hx (fun b hb => hkey x b hx hb),
        filter_sortLe le p hkey xs, List.filter_cons_of_pos (by simp [hx])]

/-! ### Lemmas: splitting, prefixes, and decimal round trips -/

theorem splitOnChar_ne_nil (c : Char) : ∀ s, splitOnChar c s ≠ []
  | [] => by simp [splitOnChar]
  | x :: xs => by
    unfold splitOnChar
    cases h : splitOnChar c xs with
    | nil => exact absurd h (splitOnChar_ne_nil c xs)
    | cons h0 t => by_cases hx : x = c <;> simp [hx]

theorem splitOnChar_no_sep (c : Char) : ∀ s, c ∉ s → splitOnChar c s = [s]
  | [], _ => rfl
  | x :: xs, h => by
    have hx : ¬x = c := fun e => h (e ▸ List.mem_cons_self x xs)
    have ih := splitOnChar_no_sep c xs fun hm => h (List.mem_cons_of_mem x hm)
    unfold splitOnChar
    rw [ih]
    simp [hx]

theorem splitOnChar_append (c : Char) :
    ∀ xs ys, c ∉ xs → splitOnChar c (xs ++ c :: ys) = xs :: splitOnChar c ys
  | [], ys, _ => by
    show splitOnChar c (c :: ys) = [] :: splitOnChar c ys
    simp only [splitOnChar]
    cases h : splitOnChar c ys with
    | nil => rfl
    | cons h0 t => simp
  | x :: xs, ys, h => by
    have hx : ¬x = c := fun e => h (e ▸ List.mem_cons_self x xs)
    have ih := splitOnChar_append c xs ys fun hm => h (List.mem_cons_of_mem x hm)
    show splitOnChar c (x :: (xs ++ c :: ys)) = (x :: xs) :: splitOnChar c ys
    simp only [splitOnChar]
    rw [ih]
    simp [hx]

theorem startsWithChars_append : ∀ p r, startsWithChars p (p ++ r) = true
  | [], _ => rfl
  | x :: p, r => by simp [startsWithChars, startsWithChars_append p r]

theorem digitChar_spec (d : Nat) (hd : d < 10) :
    (digitChar d).isDigit = true ∧ (digitChar d).toNat - 48 = d ∧
      (digitChar d).toNat = 48 + d := by
  interval_cases d <;> exact ⟨by decide, by decide, by decide⟩

theorem natToCharsFuel_congr :
    ∀ (f1 : Nat), ∀ (f2 n : Nat), n < f1 → n < f2 →
      natToCharsFuel f1 n = natToCharsFuel f2 n
  | 0, _, n, h1, _ => absurd h1 (by omega)
  | _ + 1, 0, n, _, h2 => absurd h2 (by omega)
  | f1 + 1, f2 + 1, n, h1, h2 => by
    simp only [natToCharsFuel]
    by_cases hn : n < 10
    · simp [hn]
    · rw [if_neg hn, if_neg hn,
        natToCharsFuel_congr f1 f2 (n / 10) (by omega) (by omega)]

theorem natToChars_eq (n : Nat) :
    natToChars n
      = if n < 10 then [digitChar n]
        else natToChars (n / 10) ++ [digitChar (n % 10)] := by
  show natToCharsFuel (n + 1) n = _
  simp only [natToCharsFuel]
  by_cases hn : n < 10
  · simp [hn]
  · rw [if_neg hn, if_neg hn,
      natToCharsFuel_congr n (n / 10 + 1) (n / 10) (by omega) (by omega)]
    rfl

theorem natToChars_all_digit (n : Nat) :
    ∀ c ∈ natToChars n, c.isDigit = true := by
  induction n using Nat.strong_induction_on with
  | _ n ih =>
    intro c hc
    rw [natToChars_eq] at hc
    split at hc
    · next h =>
      simp only [List.mem_singleton] at hc
      exact hc ▸ (digitChar_spec n h).1
    · next h =>
      rcases List.mem_append.mp hc with h1 | h2
      · exact ih (n / 10) (Nat.div_lt_self (by omega) (by omega)) c h1
      · simp only [List.mem_singleton] at h2
        exact h2 ▸ (digitChar_spec (n % 10) (Nat.mod_lt n (by omega))).1

theorem natToChars_ne_nil (n : Nat) : natToChars n ≠ [] := by
  rw [natToChars_eq]
  split
  · simp
  · simp

theorem natToChars_foldl (n : Nat) :
    ∀ a : Nat,
      (natToChars n).foldl (fun acc c => acc * 10 + (c.toNat - 48)) a
        = a * 10 ^ (natToChars n).length + n := by
  induction n using Nat.strong_induction_on with
  | _ n ih =>
    intro a
    rw [natToChars_eq]
    split
    · next h =>
      obtain ⟨_, _, htn⟩ := digitChar_spec n h
      simp [List.foldl, htn]
    · next h =>
      rw [List.foldl_append,
        ih (n / 10) (Nat.div_lt_self (by omega) (by omega)) a]
      obtain ⟨_, _, htn⟩ := digitChar_spec (n % 10) (Nat.mod_lt n (by omega))
      simp only [List.foldl_cons, List.foldl_nil, List.length_append,
        List.length_singleton, htn]
      rw [pow_succ]
      have hmod : n / 10 * 10 + n % 10 = n := by omega
      ring_nf
      omega

theorem parseNatTail_digits :
    ∀ xs : List Char, (∀ c ∈ xs, c.isDigit = true) →
      ∀ a : Nat, parseNatTail a xs
        = some (xs.foldl (fun acc c => acc * 10 + (c.toNat - 48)) a)
  | [], _, a => rfl
  | c :: xs, h, a => by
    have hc : c.isDigit = true := h c (List.mem_cons_self c xs)
    unfold parseNatTail
    rw [if_pos hc, List.foldl_cons,
      parseNatTail_digits xs (fun c hm => h c (List.mem_cons_of_mem _ hm))]

theorem parseNatChars_natToChars (n : Nat) :
    parseNatChars (natToChars n) = some n := by
  have hall := natToChars_all_digit n
  have hv := natToChars_foldl n 0
  have hne := natToChars_ne_nil n
  cases h : natToChars n with
  | nil => exact absurd h hne
  | cons d rest =>
    rw [h] at hall hv
    have hd : d.isDigit = true := hall d (List.mem_cons_self d rest)
    unfold parseNatChars
    dsimp only
    rw [if_pos hd,
      parseNatTail_digits rest (fun c hm => hall c (List.mem_cons_of_mem _ hm))]
    rw [List.foldl_cons] at hv
    simp only [Nat.zero_mul, Nat.zero_add] at hv
    rw [hv]

theorem joinCommaNats_singleton (n : Nat) : joinCommaNats [n] = natToChars n :=
  rfl

theorem joinCommaNats_cons2 (n m : Nat) (rest : List Nat) :
    joinCommaNats (n :: m :: rest)
      = natToChars n ++ ',' :: joinCommaNats (m :: rest) :=
  rfl

theorem joinCommaNats_chars :
    ∀ l, ∀ c ∈ joinCommaNats l, c.isDigit = true ∨ c = ','
  | [] => by intro c h; simp [joinCommaNats] at h
  | [n] => by
    intro c h
    rw [joinCommaNats_singleton] at h
    exact Or.inl (natToChars_all_digit n c h)
  | n :: m :: rest => by
    intro c h
    rw [joinCommaNats_cons2] at h
    rcases List.mem_append.mp h with h1 | h2
    · exact Or.inl (natToChars_all_digit n c h1)
    · rcases List.mem_cons.mp h2 with rfl | h3
      · exact Or.inr rfl
      · exact joinCommaNats_chars (m :: rest) c h3

theorem comma_not_mem_natToChars (n : Nat) : ',' ∉ natToChars n := by
  intro h
  have := natToChars_all_digit n ',' h
  simp at this

theorem splitComma_joinCommaNats :
    ∀ l : List Nat, l ≠ [] →
      splitOnChar ',' (joinCommaNats l) = l.map natToChars
  | [], h => absurd rfl h
  | [n], _ => by
    rw [joinCommaNats_singleton]
    exact splitOnChar_no_sep ',' _ (comma_not_mem_natToChars n)
  | n :: m :: rest, _ => by
    rw [joinCommaNats_cons2,
      splitOnChar_append ',' _ _ (comma_not_mem_natToChars n),
      splitComma_joinCommaNats (m :: rest) (by simp)]
    rfl

theorem mapOptions_parseNat_natToChars :
    ∀ l : List Nat, mapOptions parseNatChars (l.map natToChars) = some l
  | [] => rfl
  | n :: rest => by
    simp [mapOptions, parseNatChars_natToChars,
      mapOptions_parseNat_natToChars rest]

/-! ### Lemmas: the window filter loop is a filter -/

theorem foldl_guardAppend {α : Type} (g : List α → α → List α) (p : α → Bool)
    (hg : ∀ acc e, g acc e = if p e then acc ++ [e] else acc) :
    ∀ (l acc : List α), l.foldl g acc = acc ++ l.filter p
  | [], acc => by simp
  | x :: l, acc => by
    rw [List.foldl_cons, hg acc x, List.filter_cons]
    by_cases hp : p x = true
    · rw [if_pos hp, if_pos hp, foldl_guardAppend g p hg l (acc ++ [x])]
      simp
    · rw [if_neg hp, if_neg hp, foldl_guardAppend g p hg l acc]

theorem windowFilterCode_eq_filter (mid db df : Int) (entries : List Entry) :
    windowFilterCode mid db df entries
      = entries.filter (specWindowPass mid db df) := by
  unfold windowFilterCode
  dsimp only
  refine
    (foldl_guardAppend _ (specWindowPass mid db df) ?_ entries []).trans
      (List.nil_append _)
  intro acc e
  unfold specWindowPass specWindowStart specWindowEnd
  cases h : entryInstantForFilter e.timestamp <;> simp [h]

/-! ### Lemmas: the soft-delete confirmation loop pointwise -/

theorem markDeleted_markDeleted (e : Entry) :
    markDeleted (markDeleted e) = markDeleted e := rfl

theorem confirmStep_soft_stored_length (orig : List Entry) (all : List Nat)
    (st : ConfirmState) (i : Nat) :
    ((confirmStep orig all DeleteFlag.soft st i).stored).length
      = st.stored.length := by
  unfold confirmStep
  by_cases hi : i < orig.length
  · simp only [hi, if_true]
    cases h : st.stored[i]? <;> simp
  · simp [hi]

theorem softFold_stored_length (orig : List Entry) (all : List Nat) :
    ∀ (idxs : List Nat) (st : ConfirmState),
      ((idxs.foldl (confirmStep orig all DeleteFlag.soft) st).stored).length
        = st.stored.length
  | [], _ => rfl
  | i :: idxs, st => by
    rw [List.foldl_cons, softFold_stored_length orig all idxs]
    exact confirmStep_soft_stored_length orig all st i

theorem confirmStep_soft_stored_getElem (orig : List Entry) (all : List Nat)
    (st : ConfirmState) (i : Nat) (hlen : st.stored.length = orig.length)
    (j : Nat) :
    ((confirmStep orig all DeleteFlag.soft st i).stored)[j]?
      = if i = j ∧ j < orig.length then (st.stored[j]?).map markDeleted
        else st.stored[j]? := by
  unfold confirmStep
  by_cases hi : i < orig.length
  · simp only [hi, if_true]
    have hi' : i < st.stored.length := hlen ▸ hi
    obtain ⟨e, he⟩ : ∃ e, st.stored[i]? = some e :=
      ⟨_, List.getElem?_eq_getElem hi'⟩
    rw [he]
    by_cases hij : i = j
    · subst hij
      simp [List.getElem?_set_self hi', he, hi]
    · simp [List.getElem?_set_ne hij, hij]
  · simp only [hi, if_false]
    by_cases hij : i = j
    · subst hij; simp [hi]
    · simp [hij]

theorem softFold_stored_getElem (orig : List Entry) (all : List Nat) :
    ∀ (idxs : List Nat) (st : ConfirmState),
      st.stored.length = orig.length →
      ∀ j, ((idxs.foldl (confirmStep orig all DeleteFlag.soft) st).stored)[j]?
        = if j ∈ idxs ∧ j < orig.length
          then (st.stored[j]?).map markDeleted else st.stored[j]?
  | [], st, _, j => by simp
  | i :: idxs, st, hlen, j => by
    rw [List.foldl_cons]
    have hlen' :
        ((confirmStep orig all DeleteFlag.soft st i).stored).length
          = orig.length := by
      rw [confirmStep_soft_stored_length]; exact hlen
    rw [softFold_stored_getElem orig all idxs _ hlen' j,
      confirmStep_soft_stored_getElem orig all st i hlen j]
    by_cases hj : j < orig.length
    · by_cases hij : i = j
      · subst hij
        simp only [hj, and_true, List.mem_cons, true_or, if_true, if_pos rfl]
        by_cases hmem : i ∈ idxs
        · simp only [hmem, if_true, Option.map_map]
          rfl
        · simp [hmem]
      · by_cases hmem : j ∈ idxs
        · simp [hmem, hij, hj, List.mem_cons, Ne.symm hij]
        · simp [hmem, hij, hj, List.mem_cons, Ne.symm hij]
    · simp [hj]

/-! ### Lemmas: dict update assignment touches only its key -/

theorem updateAssoc_lookup_ne {β : Type} (m : List (String × β))
    (k k' : String) (v : β) (h : k' ≠ k) :
    (updateAssoc m k v).lookup k' = m.lookup k' := by
  induction m with
  | nil => rfl
  | cons p m ih =>
    obtain ⟨a, b⟩ := p
    unfold updateAssoc
    rw [List.map_cons]
    cases hak : a == k
    · simp only [Bool.false_eq_true, if_false, List.lookup]
      cases hka : k' == a
      · exact ih
      · rfl
    · have hka : (k' == a) = false := by
        rw [show a = k from by simpa using hak]
        simpa using h
      simp only [if_true, List.lookup, hka]
      exact ih

/-! ### Lemmas: the display view is determined by activity and view
fields -/

theorem viewsActive_cons (e : Entry) (l : List Entry) :
    viewsActive (e :: l)
      = if isDeletedB e then viewsActive l
        else entryView e :: viewsActive l := by
  unfold viewsActive
  rw [List.filter_cons]
  cases h : isDeletedB e <;> simp [h]

theorem viewsActive_congr :
    ∀ l l' : List Entry,
      l.map entryKey = l'.map entryKey → viewsActive l = viewsActive l'
  | [], [], _ => rfl
  | [], _ :: _, h => by simp at h
  | _ :: _, [], h => by simp at h
  | a :: l, b :: l', h => by
    simp only [List.map_cons, List.cons.injEq] at h
    have hd : isDeletedB a = isDeletedB b := congrArg Prod.fst h.1
    have hv : entryView a = entryView b := congrArg Prod.snd h.1
    rw [viewsActive_cons, viewsActive_cons, hd, hv,
      viewsActive_congr l l' h.2]

theorem zip_map_snd {α β γ : Type} (f : β → γ) :
    ∀ (xs : List α) (ys : List β),
      (xs.zip ys).map (fun p => (p.1, f p.2)) = xs.zip (ys.map f)
  | [], _ => rfl
  | _ :: _, [] => rfl
  | x :: xs, y :: ys => by simp [zip_map_snd f xs ys]

theorem displayActive_eq (l : List Entry) :
    displayActive l
      = (List.range' 1 (viewsActive l).length).zip ((viewsActive l).reverse) := by
  unfold displayActive listActive viewsActive
  rw [zip_map_snd entryView, List.map_reverse, List.length_map,
    List.length_reverse]

theorem displayActive_congr (l l' : List Entry)
    (h : l.map entryKey = l'.map entryKey) :
    displayActive l = displayActive l' := by
  rw [displayActive_eq, displayActive_eq, viewsActive_congr l l' h]

theorem map_entryKey_set :
    ∀ (l : List Entry) (i : Nat) (e' : Entry),
      (∀ e, l[i]? = some e → entryKey e' = entryKey e) →
      (l.set i e').map entryKey = l.map entryKey
  | [], _, _, _ => rfl
  | a :: l, 0, e', h => by
    simp only [List.set]
    have := h a (by simp)
    simp [this]
  | a :: l, i + 1, e', h => by
    simp only [List.set, List.map_cons]
    rw [map_entryKey_set l i e' fun e he => h e (by simpa using he)]

/-! ### Claim C1: window filter semantics -/

/-- C1 (counterexample): two concrete refutations, both with the query
issued at 2024-01-10T01:00:00Z under timezone UTC and window `(-7, 0)`.
First, the boundary: the claim asserts an entry exactly at local midnight
is excluded, but the entry at 2024-01-10T00:00:00Z — resolved exactly at
local midnight — is kept, because the code adds one day to `end` when
`days_forward <= 0`, making the window `[midnight-7d, midnight+1d)`.
Second, resolution: the claim filters by each entry's resolved absolute
instant, but for the negative-offset entry `2024-01-02T18:00:00-07:00` the
spec-resolved instant (2024-01-03T01:00:00Z, honouring the offset) lies
inside `[start, end)`, while the code resolves it to its UTC wall clock
2024-01-02T18:00:00Z and drops it from the result. -/
theorem window_semantics_counterexample :
    entryInstantForFilter eJan10.timestamp
      = some (userMidnight 0 nowSample)
    ∧ handle_history zdbTest nowSample recSample "weight" ["weight", "-7:0"]
        = .ok [eJan5, eJan10]
    ∧ specEntryInstant eNegOff
        = some (daysFromCivil 2024 1 3 * 86400 + 3600)
    ∧ entryInstantForFilter eNegOff.timestamp
        = some (daysFromCivil 2024 1 2 * 86400 + 64800)
    ∧ specWindowStart (userMidnight 0 nowSample) (-7)
        ≤ daysFromCivil 2024 1 3 * 86400 + 3600
    ∧ daysFromCivil 2024 1 3 * 86400 + 3600
        < specWindowEnd (userMidnight 0 nowSample) 0
    ∧ handle_history zdbTest nowSample recNegOff "weight" ["weight", "-7:0"]
        = .ok [eJan5, eJan10] :=
  ⟨by decide, by decide, by decide, by decide, by decide, by decide,
    by decide⟩

/-- C1 (amended, as the counterexample forces in both respects): with a
window `(days_back, days_forward)` supplied and the configured timezone
resolving to `tz`, the history query keeps exactly the non-deleted entries
whose code-resolved instant `t` satisfies `start <= t < end`, where
`start = localMidnight - |days_back|` days and
`end = localMidnight - days_forward` days with one day added when
`days_forward <= 0`.  The code's resolution (`entryInstantForFilter`)
honours a trailing `Z` and a `+` offset but reads every other timestamp —
naive or negative-offset — as UTC wall clock, so negative-offset entries
are filtered at the wrong instant relative to the spec's parse; and for
window `(-7, 0)` an entry resolved exactly at `midnight - 7d` passes and
an entry resolved exactly at midnight also passes (the window runs through
the end of today). -/
theorem history_window_filter_semantics (zdb : Zdb) (nowUtc : Int)
    (userTz : String) (args : List String) (entries : List Entry)
    (tz : TzInfo) (db df : Int)
    (hw : parseWindow args = some (db, df)) (htz : zdb userTz = some tz)
    (hne : ((entries.filter fun e => ! isDeletedB e).isEmpty) = false) :
    historyPostResolve zdb nowUtc userTz args entries
      = .ok ((entries.filter fun e => ! isDeletedB e).filter
          (specWindowPass (userMidnight tz.offsetMinutes nowUtc) db df))
    ∧ (∀ e : Entry,
        entryInstantForFilter e.timestamp
          = some (userMidnight tz.offsetMinutes nowUtc - 7 * 86400) →
        specWindowPass (userMidnight tz.offsetMinutes nowUtc) (-7) 0 e = true)
    ∧ (∀ e : Entry,
        entryInstantForFilter e.timestamp
          = some (userMidnight tz.offsetMinutes nowUtc) →
        specWindowPass (userMidnight tz.offsetMinutes nowUtc) (-7) 0 e
          = true) := by
  refine ⟨?_, ?_, ?_⟩
  · unfold historyPostResolve
    simp only [hne, Bool.false_eq_true, if_false, hw, htz]
    rw [windowFilterCode_eq_filter]
  · intro e he
    unfold specWindowPass specWindowStart specWindowEnd
    rw [he]
    simp only [Bool.and_eq_true, decide_eq_true_eq]
    norm_num
    omega
  · intro e he
    unfold specWindowPass specWindowStart specWindowEnd
    rw [he]
    simp only [Bool.and_eq_true, decide_eq_true_eq]
    norm_num

/-- C1 (witness): the amended window semantics instantiated on the sample
record at the sample instant with window `(-7, 0)`. -/
theorem history_window_filter_semantics_witness :
    historyPostResolve zdbTest nowSample "UTC" ["weight", "-7:0"]
        [eJan1, eJan5, eJan10]
      = .ok (([eJan1, eJan5, eJan10].filter fun e => ! isDeletedB e).filter
          (specWindowPass (userMidnight utcTz.offsetMinutes nowSample)
            (-7) 0))
    ∧ (∀ e : Entry,
        entryInstantForFilter e.timestamp
          = some (userMidnight utcTz.offsetMinutes nowSample - 7 * 86400) →
        specWindowPass (userMidnight utcTz.offsetMinutes nowSample)
          (-7) 0 e = true)
    ∧ (∀ e : Entry,
        entryInstantForFilter e.timestamp
          = some (userMidnight utcTz.offsetMinutes nowSample) →
        specWindowPass (userMidnight utcTz.offsetMinutes nowSample)
          (-7) 0 e = true) :=
  history_window_filter_semantics zdbTest nowSample "UTC"
    ["weight", "-7:0"] [eJan1, eJan5, eJan10] utcTz (-7) 0
    (by decide) (by decide) (by decide)

/-! ### Claim C2: out-of-range deletion proposal aborts with zero
mutation -/

/-- C2: whenever some requested display index falls outside
`[1, count of active entries]`, the proposal phase answers with exactly the
offending indices and the valid bound, and the stored record is returned
unchanged — no path of the proposal phase writes to the store (the record
component of the result is the input record on every branch of the
embedding). -/
theorem propose_out_of_range_no_mutation (r : UserRecord) (category : String)
    (c : Category) (indices_str delete_flag : String) (i : Nat)
    (hc : r.stats.lookup category = some c)
    (hi : i ∈ parse_indices indices_str)
    (hbad : i < 1
      ∨ (c.entries.filter fun e => ! isDeletedB e).reverse.length < i) :
    handle_r_delete r category indices_str delete_flag
      = (r, .outOfRange
          ((parse_indices indices_str).filter fun idx =>
            idx < 1
              || idx > (c.entries.filter fun e => ! isDeletedB e).reverse.length)
          ((c.entries.filter fun e => ! isDeletedB e).reverse.length)) := by
  have hne : (parse_indices indices_str).isEmpty = false := by
    cases h : parse_indices indices_str with
    | nil => rw [h] at hi; cases hi
    | cons a t => rfl
  have hmem : i ∈ (parse_indices indices_str).filter fun idx =>
      idx < 1
        || idx > (c.entries.filter fun e => ! isDeletedB e).reverse.length :=
    List.mem_filter.mpr ⟨hi, by
      simp only [List.length_reverse] at hbad ⊢
      simp only [Bool.or_eq_true, decide_eq_true_eq, gt_iff_lt]
      omega⟩
  have hinv : (((parse_indices indices_str).filter fun idx =>
      idx < 1
        || idx > (c.entries.filter fun e => ! isDeletedB e).reverse.length)).isEmpty
      = false := by
    cases h : (parse_indices indices_str).filter _ with
    | nil => rw [h] at hmem; cases hmem
    | cons a t => rfl
  simp only [handle_r_delete, hc, handle_deletion_command, hne,
    Bool.false_eq_true, if_false, hinv, Bool.not_false, if_true]

/-- C2 (witness): requesting display indices `{2, 9}` against the sample
category, which has three active entries, aborts with offending index 9 and
bound 3. -/
theorem propose_out_of_range_no_mutation_witness :
    handle_r_delete recSample "weight" "2,9" "-s"
      = (recSample, .outOfRange
          ((parse_indices "2,9").filter fun idx =>
            idx < 1
              || idx > (catSample.entries.filter
                  fun e => ! isDeletedB e).reverse.length)
          ((catSample.entries.filter fun e => ! isDeletedB e).reverse.length)) :=
  propose_out_of_range_no_mutation recSample "weight" catSample "2,9" "-s" 9
    (by decide) (by decide) (by decide)

/-! ### Claim C3: group query ordering -/

/-- C3 (counterexample): the claim asserts the group sequence is sorted by
entry timestamp ascending *as instants in time*.  The code sorts by the raw
timestamp strings: with member `a` holding an entry whose string
`2024-01-02T01:00:00+09:00` resolves to 2024-01-01T16:00:00Z and member `b`
holding `2024-01-01T20:00:00Z`, the code puts `b`'s entry first (string
order) while instant order puts `a`'s entry first. -/
theorem group_union_string_sort_counterexample :
    sortLe tsLe (groupUnionRaw statsGroupSample ["a", "b"])
      = [tagEntry "b" eGroupB, tagEntry "a" eGroupA]
    ∧ specInstantSortedUnion statsGroupSample ["a", "b"]
      = [tagEntry "a" eGroupA, tagEntry "b" eGroupB]
    ∧ sortLe tsLe (groupUnionRaw statsGroupSample ["a", "b"])
      ≠ specInstantSortedUnion statsGroupSample ["a", "b"] :=
  ⟨by decide, by decide, by decide⟩

/-- C3 (amended): the group sequence before display-reversal is a
permutation of the tagged union of the existing member categories' entries
(in group order, each entry stamped with its source category), sorted
stably by the raw timestamp *string* in code-point order — which coincides
with instant order only when all timestamps share one format — with ties
(equal timestamp strings) kept in original encounter order. -/
theorem group_union_sorted_by_timestamp_string
    (stats : List (String × Category)) (cats : List String) :
    List.Perm (sortLe tsLe (groupUnionRaw stats cats))
      (groupUnionRaw stats cats)
    ∧ (sortLe tsLe (groupUnionRaw stats cats)).Pairwise
        (fun x y => tsLe x y = true)
    ∧ (∀ k : String,
        (sortLe tsLe (groupUnionRaw stats cats)).filter
            (fun e => e.timestamp == k)
          = (groupUnionRaw stats cats).filter (fun e => e.timestamp == k))
    ∧ ∀ e ∈ sortLe tsLe (groupUnionRaw stats cats),
        ∃ c ∈ cats, ∃ cat : Category, stats.lookup c = some cat ∧
          ∃ e0 ∈ cat.entries, e = tagEntry c e0 := by
  refine ⟨sortLe_perm tsLe _,
    pairwise_sortLe tsLe tsLe_total tsLe_trans _, ?_, ?_⟩
  · intro k
    refine filter_sortLe tsLe _ (fun a b ha hb => tsLe_of_eq_ts a b ?_) _
    have h1 : a.timestamp = k := by simpa using ha
    have h2 : b.timestamp = k := by simpa using hb
    rw [h1, h2]
  · intro e he
    have hmem : e ∈ groupUnionRaw stats cats :=
      (sortLe_perm tsLe _).mem_iff.mp he
    unfold groupUnionRaw at hmem
    rw [List.mem_flatMap] at hmem
    obtain ⟨c, hc, hme⟩ := hmem
    refine ⟨c, hc, ?_⟩
    cases hl : stats.lookup c with
    | none => rw [hl] at hme; cases hme
    | some cat =>
      rw [hl] at hme
      rw [List.mem_map] at hme
      obtain ⟨e0, he0, rfl⟩ := hme
      exact ⟨cat, rfl, e0, he0, rfl⟩

/-- C3 (witness): on the sample group, the tagged entry from category `b`
that the sorted sequence contains does come from a member category that
exists in stats. -/
theorem group_union_sorted_by_timestamp_string_witness :
    ∃ c ∈ ["a", "b"], ∃ cat : Category,
      statsGroupSample.lookup c = some cat ∧
        ∃ e0 ∈ cat.entries, tagEntry "b" eGroupB = tagEntry c e0 :=
  (group_union_sorted_by_timestamp_string statsGroupSample ["a", "b"]).2.2.2
    (tagEntry "b" eGroupB) (by decide)

/-! ### Claim C4: hard-delete confirmation -/

/-- C4 (code bug): confirming a hard deletion of storage indices `{0, 1}`
against the sample category's three entries removes exactly those positions
(the stored list compacts to the single remaining entry, two entries
removed), but the loop reports `deleted_count = 4`: the rebuild runs once
per valid requested index and re-counts every excluded position each
time, so the user is told twice the number of entries actually removed. -/
theorem hard_delete_count_overreport :
    handle_delete_callback recSample "weight" DeleteFlag.hard [0, 1]
      = some
        ({ recSample with
            stats := updateAssoc recSample.stats "weight"
              { catSample with entries := [eJan10] } },
          { stored := [eJan10], deleted_count := 4, entries_modified := true })
    ∧ (runConfirmDeletion catSample.entries DeleteFlag.hard [0, 1]).deleted_count
        = 4
    ∧ catSample.entries.length
        - (runConfirmDeletion catSample.entries DeleteFlag.hard [0, 1]).stored.length
      = 2 :=
  ⟨by decide, by decide, by decide⟩

/-! ### Claim C5: recovery mirrors soft delete -/

/-- C5: `recoverEntry` (modelled from the spec, the source's recovery
callback being an unimplemented placeholder) is the exact mirror of the
code's confirmed soft delete: soft deleting the active entry at a valid
storage index and then recovering that index yields an active display view
identical to the one before the deletion. -/
theorem recover_mirrors_soft_delete (entries : List Entry) (i : Nat)
    (e : Entry) (he : entries[i]? = some e)
    (hact : isDeletedB e = false) :
    displayActive
        (recoverEntry
          ((runConfirmDeletion entries DeleteFlag.soft [i]).stored) i)
      = displayActive entries := by
  have hlen : i < entries.length := by
    by_contra hn
    rw [List.getElem?_eq_none (by omega)] at he
    cases he
  have hstored : (runConfirmDeletion entries DeleteFlag.soft [i]).stored
      = entries.set i (markDeleted e) := by
    unfold runConfirmDeletion
    rw [List.foldl_cons, List.foldl_nil]
    unfold confirmStep
    simp only [hlen, if_true, he]
  rw [hstored]
  have hset : (entries.set i (markDeleted e))[i]? = some (markDeleted e) :=
    List.getElem?_set_self hlen
  unfold recoverEntry
  rw [hset]
  dsimp only
  rw [List.set_set]
  apply displayActive_congr
  apply map_entryKey_set
  intro e0 he0
  rw [he] at he0
  cases he0
  unfold entryKey entryView isDeletedB markDeleted
  unfold isDeletedB at hact
  simp [hact]

/-- C5 (witness): soft deleting display storage index 1 of the sample
entries (an active entry) and recovering it restores the original active
display view. -/
theorem recover_mirrors_soft_delete_witness :
    displayActive
        (recoverEntry
          ((runConfirmDeletion [eJan1, eJan5, eJan10]
              DeleteFlag.soft [1]).stored) 1)
      = displayActive [eJan1, eJan5, eJan10] :=
  recover_mirrors_soft_delete [eJan1, eJan5, eJan10] 1 eJan5
    (by decide) (by decide)

/-! ### Claim C6: confirmation token round trip -/

theorem underscore_not_mem_joinCommaNats (l : List Nat) :
    '_' ∉ joinCommaNats l := by
  intro h
  rcases joinCommaNats_chars l '_' h with hd | hc
  · simp at hd
  · simp at hc

theorem joinCommaNats_ne_nil :
    ∀ (n : Nat) (rest : List Nat), joinCommaNats (n :: rest) ≠ []
  | n, [] => by
    rw [joinCommaNats_singleton]
    exact natToChars_ne_nil n
  | n, m :: rest => by
    rw [joinCommaNats_cons2]
    intro h
    exact natToChars_ne_nil n (List.append_eq_nil.mp h).1

theorem splitUnderscore_callback_data (category flag : List Char)
    (indices : List Nat) (hcat : '_' ∉ category) (hflag : '_' ∉ flag) :
    splitOnChar '_' (confirmationCallbackData category flag indices)
      = "confirm".data :: "delete".data :: category :: flag ::
          [joinCommaNats indices] := by
  have hform : confirmationCallbackData category flag indices
      = "confirm".data ++ '_' :: ("delete".data ++ '_' ::
          (category ++ '_' :: (flag ++ '_' :: joinCommaNats indices))) := rfl
  rw [hform,
    splitOnChar_append '_' "confirm".data _ (by decide),
    splitOnChar_append '_' "delete".data _ (by decide),
    splitOnChar_append '_' category _ hcat,
    splitOnChar_append '_' flag _ hflag,
    splitOnChar_no_sep '_' (joinCommaNats indices)
      (underscore_not_mem_joinCommaNats indices)]

/-- C6 (counterexample): the claim requires round-trip fidelity even when
the category name contains the field delimiter.  For category
`study_hours` (as `/new study hours` creates it), mode `-s` and storage
index set `{0}`, decoding the issued token fails entirely (the flag field
is parsed out of the category's second word and `int('-s')` raises), so
the original triple is not recovered. -/
theorem token_underscore_category_counterexample :
    parseConfirmCallback
        (confirmationCallbackData "study_hours".data "-s".data [0])
      = none
    ∧ parseConfirmCallback
        (confirmationCallbackData "study_hours".data "-s".data [0])
      ≠ some ("study_hours".data, "-s".data, [0]) :=
  ⟨by decide, by decide⟩

/-- C6 (amended): encoding a category, mode and storage-index list into the
confirmation token and decoding it on confirmation recovers exactly the
original triple whenever neither the category nor the flag contains the
underscore field delimiter; a category containing an underscore breaks the
round trip (see the counterexample). -/
theorem token_roundtrip_without_underscore (category flag : List Char)
    (indices : List Nat) (hcat : '_' ∉ category) (hflag : '_' ∉ flag) :
    parseConfirmCallback (confirmationCallbackData category flag indices)
      = some (category, flag, indices) := by
  have hstart : startsWithChars "confirm_delete_".data
      (confirmationCallbackData category flag indices) = true := by
    show startsWithChars "confirm_delete_".data
      ("confirm_delete_".data ++ _) = true
    exact startsWithChars_append _ _
  have hsplit := splitUnderscore_callback_data category flag indices hcat hflag
  unfold parseConfirmCallback
  rw [if_pos hstart]
  dsimp only
  rw [hsplit]
  have h2 : (["confirm".data, "delete".data, category, flag,
      joinCommaNats indices])[2]? = some category := rfl
  have h3 : (["confirm".data, "delete".data, category, flag,
      joinCommaNats indices])[3]? = some flag := rfl
  have h4 : (["confirm".data, "delete".data, category, flag,
      joinCommaNats indices])[4]? = some (joinCommaNats indices) := rfl
  have hlen : (["confirm".data, "delete".data, category, flag,
      joinCommaNats indices]).length = 5 := rfl
  rw [h2, h3]
  dsimp only
  rw [hlen, if_pos (show (5 : Nat) > 4 from by norm_num), h4]
  dsimp only [Option.getD]
  cases indices with
  | nil => rfl
  | cons n rest =>
    have hne : (joinCommaNats (n :: rest)).isEmpty = false := by
      cases h : joinCommaNats (n :: rest) with
      | nil => exact absurd h (joinCommaNats_ne_nil n rest)
      | cons a t => rfl
    rw [if_neg (by rw [hne]; exact Bool.false_ne_true),
      splitComma_joinCommaNats (n :: rest) (by simp),
      mapOptions_parseNat_natToChars]
    rfl

/-- C6 (witness): the token for category `weight`, flag `-s` and indices
`{0, 2}` decodes back to exactly that triple. -/
theorem token_roundtrip_without_underscore_witness :
    parseConfirmCallback
        (confirmationCallbackData "weight".data "-s".data [0, 2])
      = some ("weight".data, "-s".data, [0, 2]) :=
  token_roundtrip_without_underscore "weight".data "-s".data [0, 2]
    (by decide) (by decide)

/-! ### Claim C7: index-spec parsing -/

theorem indicesFold_none : ∀ parts : List (List Char),
    parts.foldl indicesFoldStep none = none
  | [] => rfl
  | p :: parts => by
    rw [List.foldl_cons, show indicesFoldStep none p = none from rfl]
    exact indicesFold_none parts

theorem indicesFold_fail (part0 : List Char) (hne : part0.isEmpty = false)
    (hfail : parsePart part0 = none) :
    ∀ parts : List (List Char), part0 ∈ parts →
      ∀ acc, parts.foldl indicesFoldStep acc = none
  | [], h, _ => absurd h (List.not_mem_nil part0)
  | p :: parts, h, acc => by
    rw [List.foldl_cons]
    rcases List.mem_cons.mp h with rfl | hmem
    · have hstep : indicesFoldStep acc part0 = none := by
        unfold indicesFoldStep
        cases acc with
        | none => rfl
        | some l => simp [hne, hfail]
      rw [hstep]
      exact indicesFold_none parts
    · exact indicesFold_fail part0 hne hfail parts hmem _

theorem indicesFold_ok :
    ∀ parts : List (List Char),
      (∀ part ∈ parts, part.isEmpty = true ∨ (parsePart part).isSome) →
      ∀ l, parts.foldl indicesFoldStep (some l)
        = some (l ++ parts.flatMap partValues)
  | [], _, l => by simp
  | p :: parts, h, l => by
    rw [List.foldl_cons]
    have hrest : ∀ part ∈ parts, part.isEmpty = true ∨ (parsePart part).isSome :=
      fun part hm => h part (List.mem_cons_of_mem p hm)
    cases hpe : p.isEmpty
    · rcases h p (List.mem_cons_self p parts) with h1 | h2
      · rw [hpe] at h1; cases h1
      · obtain ⟨vs, hvs⟩ := Option.isSome_iff_exists.mp h2
        have hstep : indicesFoldStep (some l) p = some (l ++ vs) := by
          unfold indicesFoldStep
          simp [hpe, hvs]
        rw [hstep, indicesFold_ok parts hrest (l ++ vs), List.flatMap_cons]
        simp [partValues, hpe, hvs, List.append_assoc]
    · have hstep : indicesFoldStep (some l) p = some l := by
        unfold indicesFoldStep
        simp [hpe]
      rw [hstep, indicesFold_ok parts hrest l, List.flatMap_cons]
      simp [partValues, hpe]

/-- C7 (counterexample): the claim tolerates whitespace only around commas
and sends every malformed input to the empty set, but the code deletes all
spaces before parsing, so the input `"1 2"` — two space-separated integers,
not a comma-separated list — parses to `{12}` rather than to the empty
set. -/
theorem parse_indices_space_merge_counterexample :
    parse_indices "1 2" = [12] ∧ parse_indices "1 2" ≠ [] :=
  ⟨by decide, by decide⟩

/-- C7 (amended): the parser strips every space (so whitespace is tolerated
anywhere, and digit groups separated only by spaces merge: `"1 2"` yields
`{12}`), then splits on commas, skips empty tokens, and maps each remaining
token — a bare integer or an inclusive `A-B` range, empty for `A > B` — to
its values, returning the ascending-deduplicated union; `"1,3-5,7"` yields
`{1,3,4,5,7}`, the empty string yields the empty set, and any input with a
token that is neither empty nor parseable yields the empty set.  Integers
are parsed by Python `int`, which accepts PEP 515 single underscores
between digits (`1_2` is 12, so `"1_2,3"` yields `{3, 12}`); the
unparseable-token clause is stated for tokens of printable ASCII, the
range on which `parsePart` matches `int` exactly (Python `int` also
tolerates surrounding whitespace and non-ASCII decimal digits, which no
token reaching this point contains once spaces are stripped). -/
theorem parse_indices_semantics :
    parse_indices "1,3-5,7" = [1, 3, 4, 5, 7]
    ∧ parse_indices "1, 3-5, 7" = [1, 3, 4, 5, 7]
    ∧ parse_indices "1_2,3" = [3, 12]
    ∧ parse_indices "" = []
    ∧ (∀ (s : String) (part0 : List Char),
        part0 ∈ splitOnChar ',' (s.data.filter fun c => c ≠ ' ') →
        (∀ c ∈ part0, plainAsciiChar c) →
        part0.isEmpty = false → parsePart part0 = none →
        parse_indices s = [])
    ∧ (∀ s : String,
        s.data.isEmpty = false → (pyStrip s.data).isEmpty = false →
        (∀ part ∈ splitOnChar ',' (s.data.filter fun c => c ≠ ' '),
          part.isEmpty = true ∨ (parsePart part).isSome) →
        parse_indices s
          = sortedDedup ((splitOnChar ','
              (s.data.filter fun c => c ≠ ' ')).flatMap partValues)) := by
  refine ⟨by decide, by decide, by decide, by decide, ?_, ?_⟩
  · intro s part0 hmem _hascii hne hfail
    unfold parse_indices
    dsimp only
    by_cases hearly : (s.data.isEmpty || (pyStrip s.data).isEmpty) = true
    · rw [if_pos hearly]
    · rw [if_neg hearly,
        indicesFold_fail part0 hne hfail _ hmem (some [])]
  · intro s hs1 hs2 hok
    unfold parse_indices
    dsimp only
    rw [if_neg (by rw [hs1, hs2]; simp),
      indicesFold_ok _ hok []]
    rw [List.nil_append]

/-- C7 (witness): `"1,abc"` contains the unparseable token `abc`, so the
whole parse yields the empty set. -/
theorem parse_indices_semantics_witness : parse_indices "1,abc" = [] :=
  parse_indices_semantics.2.2.2.2.1 "1,abc" "abc".data
    (by decide) (by decide) (by decide) (by decide)

/-! ### Claim C8: timestamp formatting totality -/

/-- C8 (counterexample): the claim says a naive timestamp is interpreted as
UTC.  The history-module `format_timestamp` hands a naive value to
`astimezone`, which presumes the *process-local* timezone: with the process
at UTC+9 (offset 540 minutes), the naive string `2024-01-01T00:00:00`
renders as the previous afternoon in UTC, differing from the app-module
formatter, which does pin naive values to UTC. -/
theorem format_naive_not_utc_counterexample :
    format_timestamp zdbTest 540 "2024-01-01T00:00:00" "UTC"
      = "Dec 31, 2023 at 03:00 PM UTC"
    ∧ format_timestamp_app zdbTest "2024-01-01T00:00:00" "UTC"
      = "Jan 01, 2024 at 12:00 AM UTC"
    ∧ format_timestamp zdbTest 540 "2024-01-01T00:00:00" "UTC"
      ≠ format_timestamp_app zdbTest "2024-01-01T00:00:00" "UTC" :=
  ⟨by decide, by decide, by decide⟩

/-- C8 (amended): both formatters are total and never fail the caller: a
string that does not parse is returned unchanged; an unknown timezone id
degrades to UTC; and the app-module formatter interprets naive timestamps
as UTC — it coincides with the history-module formatter exactly when the
process-local timezone is taken to be UTC, while the history-module
formatter reads naive timestamps in the process-local timezone. -/
theorem format_timestamp_total_semantics :
    (∀ (zdb : Zdb) (sysOff : Int) (iso tzName : String),
      parseIso (replaceZ iso.data) = none →
        format_timestamp zdb sysOff iso tzName = iso
        ∧ format_timestamp_app zdb iso tzName = iso)
    ∧ (∀ (zdb : Zdb) (sysOff : Int) (iso tzName : String),
      zdb tzName = none →
        format_timestamp zdb sysOff iso tzName
          = format_timestamp (fun _ => some utcTz) sysOff iso tzName
        ∧ format_timestamp_app zdb iso tzName
          = format_timestamp_app (fun _ => some utcTz) iso tzName)
    ∧ (∀ (zdb : Zdb) (iso tzName : String),
        format_timestamp_app zdb iso tzName
          = format_timestamp zdb 0 iso tzName) := by
  refine ⟨?_, ?_, ?_⟩
  · intro zdb sysOff iso tzName h
    constructor
    · unfold format_timestamp
      rw [h]
    · unfold format_timestamp_app
      rw [h]
  · intro zdb sysOff iso tzName h
    constructor
    · unfold format_timestamp
      cases hp : parseIso (replaceZ iso.data) <;> simp [h]
    · unfold format_timestamp_app
      cases hp : parseIso (replaceZ iso.data) <;> simp [h]
  · intro zdb iso tzName
    unfold format_timestamp format_timestamp_app
    cases hp : parseIso (replaceZ iso.data) <;> rfl

/-- C8 (witness): the unparseable string `garbage` is returned unchanged by
both formatters. -/
theorem format_timestamp_total_semantics_witness :
    format_timestamp zdbTest 0 "garbage" "UTC" = "garbage"
    ∧ format_timestamp_app zdbTest "garbage" "UTC" = "garbage" :=
  format_timestamp_total_semantics.1 zdbTest 0 "garbage" "UTC" (by decide)

/-! ### Claim C9: malformed window arguments are ignored -/

/-- C9: a window argument the forgiving parse rejects (non-integer day
counts, a missing colon, or the wrong number of colon fields) is equivalent
to supplying no window: for a category target the full unfiltered history
of active entries is returned, with no error — in particular the
configured-timezone check on the window path is never reached.  The day
counts go through Python `int`, which accepts PEP 515 single underscores
between digits (`-7:1_0` is the valid window `(-7, 10)`, not malformed);
the theorem is scoped to window arguments of printable ASCII, the range on
which `parsePyInt` matches `int` exactly (outside it Python `int` also
tolerates surrounding whitespace and non-ASCII decimal digits). -/
theorem malformed_window_full_history (zdb : Zdb) (nowUtc : Int)
    (r : UserRecord) (target : String) (args : List String) (c : Category)
    (_ha : ∀ c ∈ ((args[1]?).getD "").data, plainAsciiChar c)
    (hw : parseWindow args = none)
    (hg : r.groups.lookup target = none)
    (hs : r.stats.lookup target = some c) :
    handle_history zdb nowUtc r target args
      = .ok (c.entries.filter fun e => ! isDeletedB e) := by
  have hstats : r.stats.isEmpty = false := by
    cases h : r.stats with
    | nil => rw [h] at hs; cases hs
    | cons a t => rfl
  unfold handle_history
  rw [hstats]
  simp only [Bool.false_and, Bool.false_eq_true, if_false, hg, hs]
  unfold historyPostResolve
  cases he : (c.entries.filter fun e => ! isDeletedB e).isEmpty
  · simp only [he, Bool.false_eq_true, if_false, hw]
  · simp only [he, if_true, List.isEmpty_iff.mp he]
    rfl

/-- C9 (witness): the malformed window `abc:def` on the sample record
returns the full active history exactly as a window-free query would. -/
theorem malformed_window_full_history_witness :
    handle_history zdbTest nowSample recSample "weight"
        ["weight", "abc:def"]
      = .ok (catSample.entries.filter fun e => ! isDeletedB e) :=
  malformed_window_full_history zdbTest nowSample recSample "weight"
    ["weight", "abc:def"] catSample (by decide) (by decide) (by decide)
    (by decide)

/-! ### Claim C10: a confirmed soft delete only flips deletion flags -/

/-- C10: confirming a soft delete over any storage-index list mutates only
the `is_deleted` flags of the targeted valid positions: the category's
entries list keeps its length and order, every entry's value, note,
timestamp, timezone and transient tag are unchanged, untargeted entries are
untouched, every other category's binding is unchanged, and the record's
groups and timezone are untouched. -/
theorem soft_delete_frame_property (r : UserRecord) (cat : String)
    (c : Category) (idxs : List Nat)
    (hc : r.stats.lookup cat = some c) :
    handle_delete_callback r cat DeleteFlag.soft idxs
      = some
        ({ r with
            stats := updateAssoc r.stats cat
              { c with
                  entries :=
                    (runConfirmDeletion c.entries DeleteFlag.soft idxs).stored } },
          runConfirmDeletion c.entries DeleteFlag.soft idxs)
    ∧ (runConfirmDeletion c.entries DeleteFlag.soft idxs).stored.length
        = c.entries.length
    ∧ (∀ j : Nat,
        ((runConfirmDeletion c.entries DeleteFlag.soft idxs).stored)[j]?
          = (c.entries[j]?).map
              fun e => if j ∈ idxs then markDeleted e else e)
    ∧ (∀ (j : Nat) (e e' : Entry), c.entries[j]? = some e →
        ((runConfirmDeletion c.entries DeleteFlag.soft idxs).stored)[j]?
          = some e' →
        e'.value = e.value ∧ e'.note = e.note ∧ e'.timestamp = e.timestamp
          ∧ e'.timezone = e.timezone ∧ e'.category = e.category)
    ∧ (∀ cat' : String, cat' ≠ cat →
        (updateAssoc r.stats cat
            { c with entries :=
                (runConfirmDeletion c.entries DeleteFlag.soft idxs).stored }).lookup
            cat'
          = r.stats.lookup cat')
    ∧ r.groups = r.groups ∧ r.timezone = r.timezone := by
  have hpoint : ∀ j : Nat,
      ((runConfirmDeletion c.entries DeleteFlag.soft idxs).stored)[j]?
        = (c.entries[j]?).map
            fun e => if j ∈ idxs then markDeleted e else e := by
    intro j
    unfold runConfirmDeletion
    rw [softFold_stored_getElem c.entries idxs idxs
      { stored := c.entries, deleted_count := 0, entries_modified := false }
      rfl j]
    by_cases hj : j < c.entries.length
    · obtain ⟨e, he⟩ : ∃ e, c.entries[j]? = some e :=
        ⟨_, List.getElem?_eq_getElem hj⟩
      by_cases hm : j ∈ idxs
      · simp [hm, hj, he]
      · simp [hm, hj, he]
    · have hnone : c.entries[j]? = none := List.getElem?_eq_none (by omega)
      simp [hj, hnone]
  refine ⟨?_, ?_, hpoint, ?_, ?_, rfl, rfl⟩
  · unfold handle_delete_callback
    rw [hc]
  · unfold runConfirmDeletion
    exact softFold_stored_length c.entries idxs idxs
      { stored := c.entries, deleted_count := 0, entries_modified := false }
  · intro j e e' he he'
    rw [hpoint j, he] at he'
    simp only [Option.map_some'] at he'
    by_cases hm : j ∈ idxs
    · rw [if_pos hm] at he'
      cases Option.some.inj he'
      exact ⟨rfl, rfl, rfl, rfl, rfl⟩
    · rw [if_neg hm] at he'
      cases Option.some.inj he'
      exact ⟨rfl, rfl, rfl, rfl, rfl⟩
  · intro cat' hne
    exact updateAssoc_lookup_ne r.stats cat cat' _ hne

/-- C10 (witness): soft deleting storage index 1 in the sample record flags
exactly that entry and leaves everything else unchanged (instantiating the
frame theorem's record-level equation). -/
theorem soft_delete_frame_property_witness :
    handle_delete_callback recSample "weight" DeleteFlag.soft [1]
      = some
        ({ recSample with
            stats := updateAssoc recSample.stats "weight"
              { catSample with
                  entries :=
                    (runConfirmDeletion catSample.entries
                      DeleteFlag.soft [1]).stored } },
          runConfirmDeletion catSample.entries DeleteFlag.soft [1]) :=
  (soft_delete_frame_property recSample "weight" catSample [1]
    (by decide)).1

end StatsBot
